import Mathlib

/-!
Shallow embedding of the orchestration core of the jewelry photo enhancer
(src/index.tsx): the retry harness `enhanceImageWithRetry`, the batch
scheduler `runEnhancement`, the classification helper `getOrnamentType`,
the eligibility filter behind `handleAutoEnhance` / `unenhancedCount`,
the liked-set toggle `handleToggleLike`, and the merge-by-id
reconciliation step applied after a run settles.

External effects are modelled by explicit environments:
* each network attempt's outcome is drawn from a `Nat → GenResponse`
  (resp. `Nat → ClassifyResponse`) environment, indexed by attempt number;
* `setTimeout` backoff waits are returned as an explicit list of waited
  milliseconds, in the order they were performed;
* the scheduler additionally returns an event trace (`Event`) recording,
  in program order, every job launch, job settlement and progress-callback
  invocation, which makes the temporal batching guarantees stateable.
-/

/-- One image record (interface `ImagePair`, src/index.tsx lines 6-17).
Data URLs and the `File` handle are opaque strings. -/
structure ImagePair where
  id : String
  sourceId : String
  original : String
  originalFile : String
  enhanced : Option String
  isLoading : Bool
  error : Option String
  isSelected : Bool
  title : String
  enhancedTitle : Option String
deriving DecidableEq

/-- Output format chosen in `CustomSettings` (src/index.tsx line 31). -/
inductive OutputFormat
  | jpeg
  | png
  | webp
deriving DecidableEq

/-- Outcome of one attempt's interaction with the generation endpoint,
as seen by the body of the try-block in `enhanceImageWithRetry`
(src/index.tsx lines 219-245):
* `withImage url`: the response carried an inline image payload;
* `noImage`: the call returned but no part carried inline data (the code
  then throws "AI did not return an image.");
* `raised (some msg)`: an `Error` with message `msg` was thrown;
* `raised none`: a non-`Error` value was thrown (no message). -/
inductive GenResponse
  | withImage (url : String)
  | noImage
  | raised (msg : Option String)
deriving DecidableEq

/-- `true` when the attempt does not yield an image payload, i.e. the
try-block raises (src/index.tsx lines 243-246). -/
def GenResponse.raisesError : GenResponse → Bool
  | .withImage _ => false
  | .noImage => true
  | .raised _ => true

/-- One enhancement job handed to `runEnhancement`
(src/index.tsx line 269: `{pair: ImagePair, prompt: string}`). -/
structure Job where
  pair : ImagePair
  prompt : String
deriving DecidableEq

def MAX_RETRIES : Nat := 3

def INITIAL_RETRY_DELAY_MS : Nat := 1000

def BATCH_SIZE : Nat := 5

def rateLimitMessage : String := "Rate limit exceeded. Please try again later."

def unknownErrorMessage : String := "An unknown error occurred."

def noImageMessage : String := "AI did not return an image."

/-- Does `p` occur as a prefix of `h`? -/
def charsPrefix : List Char → List Char → Bool
  | [], _ => true
  | _ :: _, [] => false
  | a :: p, b :: h => a == b && charsPrefix p h

/-- Does `p` occur contiguously somewhere inside `h`? -/
def charsContain (p : List Char) : List Char → Bool
  | [] => charsPrefix p []
  | b :: h => charsPrefix p (b :: h) || charsContain p h

/-- JavaScript `String.prototype.includes`: substring containment. -/
def strContainsSub (hay pat : String) : Bool :=
  charsContain pat.toList hay.toList

/-- JavaScript `String.prototype.toLowerCase`, character-wise. -/
def strToLower (s : String) : String :=
  String.mk (s.toList.map Char.toLower)

/-- JavaScript `String.prototype.trim`: drop leading and trailing
whitespace. -/
def strTrim (s : String) : String :=
  String.mk
    (((s.toList.dropWhile Char.isWhitespace).reverse.dropWhile
        Char.isWhitespace).reverse)

/-- Error classification performed after the last attempt fails
(src/index.tsx lines 248-256).  `none` models a thrown value that is not
an `Error` instance. -/
def classifyFinalError : Option String → String
  | none => unknownErrorMessage
  | some msg =>
      if strContainsSub msg "429" || strContainsSub (strToLower msg) "quota"
          || strContainsSub (strToLower msg) "rate limit" then
        rateLimitMessage
      else
        msg

/-- The conversion applied to a returned image url when an output format
was requested (src/index.tsx lines 237-241); `convert` models the
external `convertImageFormat` canvas re-encoding. -/
def finalUrlFor (convert : String → OutputFormat → String)
    (fmt : Option OutputFormat) (url : String) : String :=
  match fmt with
  | some f => convert url f
  | none => url

/-- The body of one attempt of `enhanceImageWithRetry`
(src/index.tsx lines 219-245): success returns the updated record,
failure returns the thrown error's message (if any). -/
def runAttempt (pair : ImagePair) (fmt : Option OutputFormat)
    (convert : String → OutputFormat → String) :
    GenResponse → Except (Option String) ImagePair
  | .withImage url =>
      .ok { pair with
              enhanced := some (finalUrlFor convert fmt url)
              isLoading := false
              isSelected := true }
  | .noImage => .error (some noImageMessage)
  | .raised e => .error e

/-- The retry loop of `enhanceImageWithRetry` (src/index.tsx lines
218-262), unrolled on the number of remaining attempts.  `attempt` is the
1-based attempt counter; `remaining = 0` corresponds to the loop having
exceeded `MAX_RETRIES` (the "theoretically unreachable" line 265).
Returns the settled record together with the list of backoff waits (ms)
performed between attempts. -/
def enhanceImageWithRetryGo (pair : ImagePair) (fmt : Option OutputFormat)
    (convert : String → OutputFormat → String)
    (responses : Nat → GenResponse) : Nat → Nat → ImagePair × List Nat
  | _, 0 =>
      ({ pair with isLoading := false
                   error := some "Enhancement failed after multiple retries." }, [])
  | attempt, remaining + 1 =>
      match runAttempt pair fmt convert (responses attempt) with
      | .ok r => (r, [])
      | .error e =>
          if remaining = 0 then
            ({ pair with isLoading := false
                         error := some (classifyFinalError e) }, [])
          else
            let rest := enhanceImageWithRetryGo pair fmt convert responses
                (attempt + 1) remaining
            (rest.1, INITIAL_RETRY_DELAY_MS * 2 ^ (attempt - 1) :: rest.2)

/-- `enhanceImageWithRetry` (src/index.tsx lines 209-266).  The `_prompt`
and the endpoint itself are absorbed into the `responses` environment. -/
def enhanceImageWithRetry (pair : ImagePair) (_prompt : String)
    (fmt : Option OutputFormat) (convert : String → OutputFormat → String)
    (responses : Nat → GenResponse) : ImagePair × List Nat :=
  enhanceImageWithRetryGo pair fmt convert responses 1 MAX_RETRIES

/-- Outcome of one attempt of the classification call in
`getOrnamentType` (src/index.tsx lines 128-148). -/
inductive ClassifyResponse
  | text (t : String)
  | raised
deriving DecidableEq

/-- The `.replace(/[^a-zA-Z\s]/g, '')` step of the sanitization at
src/index.tsx line 138: keep letters and whitespace. -/
def sanitizeOrnament (s : String) : String :=
  String.mk (s.toList.filter (fun c => c.isAlpha || c.isWhitespace))

def jewelryFallback : String := "Jewelry"

/-- The attempt loop of `getOrnamentType` (src/index.tsx lines 127-161),
same unrolling convention as `enhanceImageWithRetryGo`. -/
def getOrnamentTypeGo (responses : Nat → ClassifyResponse) :
    Nat → Nat → String × List Nat
  | _, 0 => (jewelryFallback, [])
  | attempt, remaining + 1 =>
      match responses attempt with
      | .text t =>
          let ornamentType := sanitizeOrnament (strTrim t)
          if ornamentType ≠ "" ∧ 2 < ornamentType.length ∧ ornamentType.length < 25 then
            (ornamentType, [])
          else
            (jewelryFallback, [])
      | .raised =>
          if remaining = 0 then
            (jewelryFallback, [])
          else
            let rest := getOrnamentTypeGo responses (attempt + 1) remaining
            (rest.1, INITIAL_RETRY_DELAY_MS * 2 ^ (attempt - 1) :: rest.2)

/-- `getOrnamentType` (src/index.tsx lines 122-162): returns the label
and the backoff waits performed. -/
def getOrnamentType (responses : Nat → ClassifyResponse) : String × List Nat :=
  getOrnamentTypeGo responses 1 MAX_RETRIES

/-- Observable scheduler events, in program order:
`launch i` = the promise for job `i` is created (src/index.tsx line 280),
`settle i` = job `i`'s promise has settled inside `Promise.all`
(line 284), `progress` = one `onProgress()` call (line 288). -/
inductive Event
  | launch (jobIdx : Nat)
  | settle (jobIdx : Nat)
  | progress
deriving DecidableEq

/-- Fuel-driven chunking, `jobs.slice(i, i + n)` for `i = 0, n, 2n, ...`
(src/index.tsx lines 277-278).  The fuel equals the list length at the
entry point, which suffices for any `n ≥ 1`. -/
def chunksOfAux (n : Nat) : Nat → List α → List (List α)
  | 0, _ => []
  | _ + 1, [] => []
  | fuel + 1, a :: l => (a :: l).take n :: chunksOfAux n fuel ((a :: l).drop n)

/-- Contiguous chunks of size `n` (last one possibly shorter). -/
def chunksOf (n : Nat) (l : List α) : List (List α) :=
  chunksOfAux n l.length l

/-- One batch of jobs, each run through the retry harness with its own
response environment, indexed by global job position
(src/index.tsx lines 280-284). -/
def runBatch (fmt : Option OutputFormat)
    (convert : String → OutputFormat → String)
    (envs : Nat → Nat → GenResponse) (chunk : List (Nat × Job)) :
    List ImagePair :=
  chunk.map fun ij =>
    (enhanceImageWithRetry ij.2.pair ij.2.prompt fmt convert (envs ij.1)).1

/-- The events emitted while processing one batch: all launches, then all
settlements, then one progress call per settled job
(src/index.tsx lines 280-288). -/
def batchEvents (chunk : List (Nat × Job)) : List Event :=
  (chunk.map fun ij => Event.launch ij.1)
    ++ (chunk.map fun ij => Event.settle ij.1)
    ++ List.replicate chunk.length Event.progress

/-- The `for` loop of `runEnhancement` over batches
(src/index.tsx lines 277-289): accumulates resolved records in order and
emits each batch's events in sequence. -/
def runChunks (fmt : Option OutputFormat)
    (convert : String → OutputFormat → String)
    (envs : Nat → Nat → GenResponse) :
    List (List (Nat × Job)) → List ImagePair × List Event
  | [] => ([], [])
  | c :: cs =>
      let rest := runChunks fmt convert envs cs
      (runBatch fmt convert envs c ++ rest.1, batchEvents c ++ rest.2)

/-- `runEnhancement` up to (but not including) the final state merge
(src/index.tsx lines 268-289): returns `allResolvedPairs` and the event
trace. -/
def runEnhancement (jobs : List Job) (fmt : Option OutputFormat)
    (convert : String → OutputFormat → String)
    (envs : Nat → Nat → GenResponse) : List ImagePair × List Event :=
  runChunks fmt convert envs (chunksOf BATCH_SIZE jobs.enum)

/-- `new Map(allResolvedPairs.map(p => [p.id, p])).get(i)`
(src/index.tsx line 293): later entries overwrite earlier ones. -/
def resolvedMapGet (rs : List ImagePair) (i : String) : Option ImagePair :=
  rs.foldl (fun acc r => if r.id = i then some r else acc) none

/-- The final merge-by-id into session state
(src/index.tsx lines 292-295). -/
def mergeResolved (session rs : List ImagePair) : List ImagePair :=
  session.map fun p => (resolvedMapGet rs p.id).getD p

/-- `sourceIdsWithResults` (src/index.tsx lines 299, 766): source ids
that already have at least one derived record. -/
def sourceIdsWithResults (pairs : List ImagePair) : List String :=
  (pairs.filter fun p => decide (p.id ≠ p.sourceId)).map (·.sourceId)

/-- `sourcePairsToProcess` (src/index.tsx lines 300, 767): originals with
no derived record yet. -/
def sourcePairsToProcess (pairs : List ImagePair) : List ImagePair :=
  pairs.filter fun p =>
    decide (p.id = p.sourceId ∧ p.id ∉ sourceIdsWithResults pairs)

/-- `unenhancedCount` (src/index.tsx line 767). -/
def unenhancedCount (pairs : List ImagePair) : Nat :=
  (sourcePairsToProcess pairs).length

/-- The derived placeholder record created by `handleAutoEnhance`
(src/index.tsx lines 334-347). -/
def autoResultPair (sourcePair : ImagePair) : ImagePair :=
  { sourcePair with
      id := sourcePair.id ++ "-res-auto"
      sourceId := sourcePair.id
      enhancedTitle := some "Enhanced"
      isLoading := true
      enhanced := none
      error := none
      isSelected := false }

/-- The job list built by `handleAutoEnhance`
(src/index.tsx lines 331-347): one job per eligible original. -/
def autoEnhanceJobs (pairs : List ImagePair) (basePrompt : String) :
    List Job :=
  (sourcePairsToProcess pairs).map fun sp =>
    { pair := autoResultPair sp, prompt := basePrompt }

/-- `handleToggleLike` (src/index.tsx lines 737-747). -/
def handleToggleLike (pairToToggle : ImagePair)
    (currentLiked : List ImagePair) : List ImagePair :=
  if currentLiked.any (fun p => decide (p.id = pairToToggle.id)) then
    currentLiked.filter fun p => decide (p.id ≠ pairToToggle.id)
  else
    currentLiked ++ [{ pairToToggle with isSelected := false }]

/-- Number of entries of the liked list carrying a given id. -/
def countById (l : List ImagePair) (i : String) : Nat :=
  (l.filter fun p => decide (p.id = i)).length

/-- Membership of an id in a record list (`some(p => p.id === id)`). -/
def memberById (l : List ImagePair) (i : String) : Bool :=
  l.any fun p => decide (p.id = i)

/-- First entry of a record list carrying a given id. -/
def lookupById (l : List ImagePair) (i : String) : Option ImagePair :=
  l.find? fun p => decide (p.id = i)

/-- The two state collections relevant to likes
(src/index.tsx lines 43, 45). -/
structure AppState where
  imagePairs : List ImagePair
  likedImages : List ImagePair
deriving DecidableEq

/-- Session-collection mutations available in the app; none of them
touches `likedImages`:
`toggleSelection` = `handleToggleSelection` (src/index.tsx lines 632-636),
`removeImage` = `handleRemoveImage` (lines 474-476),
`removeGroup` = `handleRemoveGroup` (lines 478-480),
`addPairs` = the functional appends at lines 198, 354, 461-464, 623,
`mergeRun` = the merge at lines 292-295. -/
inductive SessionOp
  | toggleSelection (i : String)
  | removeImage (i : String)
  | removeGroup (srcId : String)
  | addPairs (ps : List ImagePair)
  | mergeRun (rs : List ImagePair)

/-- Effect of each session mutation on the app state. -/
def applySessionOp : SessionOp → AppState → AppState
  | .toggleSelection i, st =>
      { st with imagePairs := st.imagePairs.map fun p =>
          if p.id = i then { p with isSelected := !p.isSelected } else p }
  | .removeImage i, st =>
      { st with imagePairs := st.imagePairs.filter fun p => decide (p.id ≠ i) }
  | .removeGroup s, st =>
      { st with imagePairs := st.imagePairs.filter fun p => decide (p.sourceId ≠ s) }
  | .addPairs ps, st => { st with imagePairs := st.imagePairs ++ ps }
  | .mergeRun rs, st => { st with imagePairs := mergeResolved st.imagePairs rs }

/-- Run a sequence of session mutations. -/
def applySessionOps (ops : List SessionOp) (st : AppState) : AppState :=
  ops.foldl (fun s op => applySessionOp op s) st

/-! ### Chunking lemmas -/

theorem chunksOfAux_congr {α : Type _} (n : Nat) (hn : n ≠ 0) :
    ∀ f1 f2 (l : List α), l.length ≤ f1 → l.length ≤ f2 →
      chunksOfAux n f1 l = chunksOfAux n f2 l := by
  intro f1
  induction f1 with
  | zero =>
      intro f2 l h1 _
      have hl : l = [] := List.eq_nil_of_length_eq_zero (Nat.le_zero.1 h1)
      subst hl
      cases f2 <;> rfl
  | succ f1 ih =>
      intro f2 l h1 h2
      cases l with
      | nil => cases f2 <;> rfl
      | cons a t =>
          simp only [List.length_cons] at h1 h2
          cases f2 with
          | zero => omega
          | succ f2 =>
              have hd : ((a :: t).drop n).length = t.length + 1 - n := by
                simp [List.length_drop]
              simp only [chunksOfAux]
              congr 1
              apply ih
              · omega
              · omega

theorem chunksOf_nil {α : Type _} (n : Nat) : chunksOf n ([] : List α) = [] := rfl

theorem chunksOf_cons {α : Type _} (n : Nat) (hn : n ≠ 0) (l : List α)
    (hl : l ≠ []) : chunksOf n l = l.take n :: chunksOf n (l.drop n) := by
  cases l with
  | nil => exact absurd rfl hl
  | cons a t =>
      show chunksOfAux n (t.length + 1) (a :: t) = _
      simp only [chunksOfAux]
      congr 1
      apply chunksOfAux_congr n hn
      · have : ((a :: t).drop n).length = t.length + 1 - n := by
          simp [List.length_drop]
        omega
      · exact le_refl _

theorem chunksOfAux_map {α β : Type _} (f : α → β) (n : Nat) :
    ∀ fuel (l : List α),
      chunksOfAux n fuel (l.map f) = (chunksOfAux n fuel l).map (List.map f) := by
  intro fuel
  induction fuel with
  | zero => intro l; rfl
  | succ fuel ih =>
      intro l
      cases l with
      | nil => rfl
      | cons a t =>
          show ((a :: t).map f).take n
                :: chunksOfAux n fuel (((a :: t).map f).drop n)
              = List.map (List.map f)
                  ((a :: t).take n :: chunksOfAux n fuel ((a :: t).drop n))
          rw [← List.map_take, ← List.map_drop, ih, List.map_cons]

theorem chunksOf_map {α β : Type _} (f : α → β) (n : Nat) (l : List α) :
    chunksOf n (l.map f) = (chunksOf n l).map (List.map f) := by
  unfold chunksOf
  rw [List.length_map]
  exact chunksOfAux_map f n l.length l

theorem chunksOf_range'_le (s m : Nat) (h0 : 0 < m) (h5 : m ≤ 5) :
    chunksOf 5 (List.range' s m) = [List.range' s m] := by
  rw [chunksOf_cons 5 (by norm_num) _ (by simp [List.range'_eq_nil]; omega)]
  rw [List.take_of_length_le (by simp; omega),
    List.drop_eq_nil_of_le (by simp; omega)]
  rfl

theorem chunksOf_range'_gt (s m : Nat) (h5 : 5 < m) :
    chunksOf 5 (List.range' s m)
      = List.range' s 5 :: chunksOf 5 (List.range' (s + 5) (m - 5)) := by
  have hsplit : List.range' s 5 ++ List.range' (s + 5) (m - 5) = List.range' s m := by
    rw [List.range'_append_1]
    congr 1
    omega
  rw [chunksOf_cons 5 (by norm_num) _ (by simp [List.range'_eq_nil]; omega)]
  rw [← hsplit, List.take_left' (by simp), List.drop_left' (by simp)]

/-! ### Trace structure of the batch scheduler -/

/-- The events of one batch, as a function of its (global) job indices. -/
def segEv (c : List Nat) : List Event :=
  c.map Event.launch ++ c.map Event.settle
    ++ List.replicate c.length Event.progress

/-- The full event trace of a chunk list of job indices. -/
def traceIdx : List (List Nat) → List Event
  | [] => []
  | c :: cs => segEv c ++ traceIdx cs

theorem batchEvents_eq_segEv (chunk : List (Nat × Job)) :
    batchEvents chunk = segEv (chunk.map Prod.fst) := by
  unfold batchEvents segEv
  rw [List.map_map, List.map_map, List.length_map]
  rfl

theorem runChunks_events (fmt : Option OutputFormat)
    (convert : String → OutputFormat → String)
    (envs : Nat → Nat → GenResponse) (cs : List (List (Nat × Job))) :
    (runChunks fmt convert envs cs).2 = traceIdx (cs.map (List.map Prod.fst)) := by
  induction cs with
  | nil => rfl
  | cons c cs ih => simp [runChunks, traceIdx, batchEvents_eq_segEv, ih]

theorem runEnhancement_events (jobs : List Job) (fmt : Option OutputFormat)
    (convert : String → OutputFormat → String)
    (envs : Nat → Nat → GenResponse) :
    (runEnhancement jobs fmt convert envs).2
      = traceIdx (chunksOf 5 (List.range jobs.length)) := by
  show (runChunks fmt convert envs (chunksOf BATCH_SIZE jobs.enum)).2 = _
  rw [runChunks_events, ← chunksOf_map, List.enum_map_fst, List.range_eq_range']
  rfl

theorem launch_mem_segEv {j : Nat} {c : List Nat} (h : j ∈ c) :
    Event.launch j ∈ segEv c :=
  List.mem_append_left _ (List.mem_append_left _ (List.mem_map_of_mem _ h))

theorem settle_mem_segEv {j : Nat} {c : List Nat} (h : j ∈ c) :
    Event.settle j ∈ segEv c :=
  List.mem_append_left _ (List.mem_append_right _ (List.mem_map_of_mem _ h))

theorem count_progress_map_launch (c : List Nat) :
    (c.map Event.launch).count Event.progress = 0 := by
  rw [List.count_eq_zero]
  simp

theorem count_progress_map_settle (c : List Nat) :
    (c.map Event.settle).count Event.progress = 0 := by
  rw [List.count_eq_zero]
  simp

theorem segEv_count_progress (c : List Nat) :
    (segEv c).count Event.progress = c.length := by
  simp [segEv, List.count_append, count_progress_map_launch,
    count_progress_map_settle, List.count_replicate]

theorem seg_split_progress {c : List Nat} {t1 t2 : List Event}
    (h : segEv c = t1 ++ Event.progress :: t2) :
    ∃ r, t1 = c.map Event.launch ++ c.map Event.settle ++ r ∧
      r.length < c.length ∧ t1.count Event.progress = r.length := by
  have h' : (c.map Event.launch ++ c.map Event.settle)
      ++ List.replicate c.length Event.progress
      = t1 ++ Event.progress :: t2 := h
  have hlen : (c.map Event.launch ++ c.map Event.settle).length ≤ t1.length := by
    by_contra hlt
    push_neg at hlt
    have e1 : ((c.map Event.launch ++ c.map Event.settle)
        ++ List.replicate c.length Event.progress)[t1.length]?
        = (c.map Event.launch ++ c.map Event.settle)[t1.length]? :=
      List.getElem?_append_left hlt
    have e2 : (t1 ++ Event.progress :: t2)[t1.length]? = some Event.progress := by
      rw [List.getElem?_append_right (le_refl _)]
      simp
    rw [h', e2] at e1
    have hmem : Event.progress ∈ c.map Event.launch ++ c.map Event.settle :=
      List.getElem?_mem e1.symm
    rw [List.mem_append] at hmem
    rcases hmem with hm | hm
    · obtain ⟨a, _, ha⟩ := List.mem_map.1 hm
      simp at ha
    · obtain ⟨a, _, ha⟩ := List.mem_map.1 hm
      simp at ha
  have hpre : (c.map Event.launch ++ c.map Event.settle) <+: t1 :=
    List.prefix_of_prefix_length_le
      (h' ▸ List.prefix_append _ _) (List.prefix_append _ _) hlen
  obtain ⟨r, hr⟩ := hpre
  have hPeq : List.replicate c.length Event.progress
      = r ++ Event.progress :: t2 := by
    have h2 := h'
    rw [← hr] at h2
    simp only [List.append_assoc] at h2
    exact List.append_cancel_left (List.append_cancel_left h2)
  have hrep : ∀ e ∈ r, e = Event.progress := by
    intro e he
    exact List.eq_of_mem_replicate (hPeq ▸ List.mem_append_left _ he)
  have hlenP : c.length = r.length + (t2.length + 1) := by
    have := congrArg List.length hPeq
    simpa using this
  refine ⟨r, hr.symm, by omega, ?_⟩
  rw [← hr]
  rw [List.count_append, List.count_append]
  rw [count_progress_map_launch, count_progress_map_settle]
  have : r.count Event.progress = r.length := by
    rw [List.count_eq_length]
    intro b hb
    rw [hrep b hb]
  omega

theorem seg_split_launch {c : List Nat} {t1 t2 : List Event} {j : Nat}
    (h : segEv c = t1 ++ Event.launch j :: t2) : j ∈ c := by
  have hmem : Event.launch j ∈ segEv c := by
    rw [h]
    exact List.mem_append_right _ (List.mem_cons_self _ _)
  simpa [segEv] using hmem

theorem seg_split_settle {c : List Nat} {t1 t2 : List Event} {j : Nat}
    (h : segEv c = t1 ++ Event.settle j :: t2) :
    j ∈ c ∧ ∀ j' ∈ c, Event.launch j' ∈ t1 := by
  have h' : (c.map Event.launch ++ c.map Event.settle)
      ++ List.replicate c.length Event.progress
      = t1 ++ Event.settle j :: t2 := h
  have hmem : Event.settle j ∈ segEv c := by
    rw [h]
    exact List.mem_append_right _ (List.mem_cons_self _ _)
  have hj : j ∈ c := by simpa [segEv] using hmem
  refine ⟨hj, ?_⟩
  have hlen : (c.map Event.launch).length ≤ t1.length := by
    by_contra hlt
    push_neg at hlt
    have hlt2 : t1.length < (c.map Event.launch ++ c.map Event.settle).length := by
      rw [List.length_append]
      omega
    have e1 : ((c.map Event.launch ++ c.map Event.settle)
        ++ List.replicate c.length Event.progress)[t1.length]?
        = (c.map Event.launch)[t1.length]? := by
      rw [List.getElem?_append_left hlt2, List.getElem?_append_left hlt]
    have e2 : (t1 ++ Event.settle j :: t2)[t1.length]? = some (Event.settle j) := by
      rw [List.getElem?_append_right (le_refl _)]
      simp
    rw [h', e2] at e1
    have : Event.settle j ∈ c.map Event.launch := List.getElem?_mem e1.symm
    obtain ⟨a, _, ha⟩ := List.mem_map.1 this
    simp at ha
  have hZ : c.map Event.launch ++ (c.map Event.settle
      ++ List.replicate c.length Event.progress) = t1 ++ Event.settle j :: t2 := by
    rw [← List.append_assoc]
    exact h'
  have hpre : (c.map Event.launch) <+: t1 :=
    List.prefix_of_prefix_length_le (hZ ▸ List.prefix_append _ _)
      (List.prefix_append _ _) hlen
  intro j' hj'
  exact hpre.subset (List.mem_map_of_mem _ hj')

theorem traceIdx_chunks_count :
    ∀ m s, (traceIdx (chunksOf 5 (List.range' s m))).count Event.progress = m := by
  intro m
  induction m using Nat.strong_induction_on with
  | h m ih =>
    intro s
    rcases Nat.eq_zero_or_pos m with hm | hm
    · subst hm; rfl
    · by_cases hm5 : m ≤ 5
      · rw [chunksOf_range'_le s m hm hm5]
        simp only [traceIdx, List.append_nil]
        rw [segEv_count_progress, List.length_range']
      · push_neg at hm5
        rw [chunksOf_range'_gt s m hm5]
        simp only [traceIdx]
        rw [List.count_append, segEv_count_progress, List.length_range',
          ih (m - 5) (by omega) (s + 5)]
        omega

theorem traceB :
    ∀ m s t1 t2, 5 ∣ s →
      traceIdx (chunksOf 5 (List.range' s m)) = t1 ++ Event.progress :: t2 →
      ∀ j, s ≤ j → j < s + m → j / 5 = (s + t1.count Event.progress) / 5 →
      Event.settle j ∈ t1 := by
  intro m
  induction m using Nat.strong_induction_on with
  | h m ih =>
    intro s t1 t2 hdvd heq j hj1 hj2 hj3
    rcases Nat.eq_zero_or_pos m with hm | hm
    · subst hm
      have hnil : traceIdx (chunksOf 5 (List.range' s 0)) = [] := rfl
      rw [hnil] at heq
      exact absurd heq.symm (by simp)
    · by_cases hm5 : m ≤ 5
      · rw [chunksOf_range'_le s m hm hm5] at heq
        simp only [traceIdx, List.append_nil] at heq
        obtain ⟨r, ht1, _, _⟩ := seg_split_progress heq
        have hjmem : j ∈ List.range' s m := List.mem_range'_1.2 ⟨hj1, hj2⟩
        rw [ht1]
        exact List.mem_append_left _
          (List.mem_append_right _ (List.mem_map_of_mem _ hjmem))
      · push_neg at hm5
        rw [chunksOf_range'_gt s m hm5] at heq
        simp only [traceIdx] at heq
        rcases List.append_eq_append_iff.1 heq with ⟨a', ha1, ha2⟩ | ⟨c', hc1, hc2⟩
        · by_cases hj5 : j < s + 5
          · have hjmem : j ∈ List.range' s 5 := List.mem_range'_1.2 ⟨hj1, by omega⟩
            rw [ha1]
            exact List.mem_append_left _ (settle_mem_segEv hjmem)
          · push_neg at hj5
            have hcount : t1.count Event.progress
                = 5 + a'.count Event.progress := by
              rw [ha1, List.count_append, segEv_count_progress, List.length_range']
            have hj3' : j / 5 = ((s + 5) + a'.count Event.progress) / 5 := by
              rw [hj3, hcount]
              congr 1
              omega
            have hrec := ih (m - 5) (by omega) (s + 5) a' t2
              (dvd_add hdvd (dvd_refl 5)) ha2 j hj5 (by omega) hj3'
            rw [ha1]
            exact List.mem_append_right _ hrec
        · cases c' with
          | nil =>
              rw [List.append_nil] at hc1
              have hT : traceIdx (chunksOf 5 (List.range' (s + 5) (m - 5)))
                  = [] ++ Event.progress :: t2 := by
                rw [List.nil_append]
                exact hc2.symm
              have hfalse := ih (m - 5) (by omega) (s + 5) [] t2
                (dvd_add hdvd (dvd_refl 5)) hT (s + 5) (le_refl _) (by omega)
                (by simp)
              exact absurd hfalse (List.not_mem_nil _)
          | cons e c'' =>
              injection hc2 with he ht2
              rw [← he] at hc1
              obtain ⟨r, ht1, hrlen, hcnt⟩ := seg_split_progress hc1
              rw [List.length_range'] at hrlen
              obtain ⟨p, rfl⟩ := hdvd
              have hj5 : j < 5 * p + 5 := by omega
              have hjmem : j ∈ List.range' (5 * p) 5 :=
                List.mem_range'_1.2 ⟨hj1, by omega⟩
              rw [ht1]
              exact List.mem_append_left _
                (List.mem_append_right _ (List.mem_map_of_mem _ hjmem))

theorem traceC :
    ∀ m s t1 t2 j, 5 ∣ s →
      traceIdx (chunksOf 5 (List.range' s m)) = t1 ++ Event.launch j :: t2 →
      ∀ j', s ≤ j' → j' < s + m → j' / 5 < j / 5 →
      Event.settle j' ∈ t1 := by
  intro m
  induction m using Nat.strong_induction_on with
  | h m ih =>
    intro s t1 t2 j hdvd heq j' hj'1 hj'2 hj'3
    rcases Nat.eq_zero_or_pos m with hm | hm
    · subst hm
      have hnil : traceIdx (chunksOf 5 (List.range' s 0)) = [] := rfl
      rw [hnil] at heq
      exact absurd heq.symm (by simp)
    · by_cases hm5 : m ≤ 5
      · rw [chunksOf_range'_le s m hm hm5] at heq
        simp only [traceIdx, List.append_nil] at heq
        have hjc : j ∈ List.range' s m := seg_split_launch heq
        rw [List.mem_range'_1] at hjc
        obtain ⟨p, rfl⟩ := hdvd
        omega
      · push_neg at hm5
        rw [chunksOf_range'_gt s m hm5] at heq
        simp only [traceIdx] at heq
        rcases List.append_eq_append_iff.1 heq with ⟨a', ha1, ha2⟩ | ⟨c', hc1, hc2⟩
        · by_cases hj'5 : j' < s + 5
          · have hjmem : j' ∈ List.range' s 5 := List.mem_range'_1.2 ⟨hj'1, by omega⟩
            rw [ha1]
            exact List.mem_append_left _ (settle_mem_segEv hjmem)
          · push_neg at hj'5
            have hrec := ih (m - 5) (by omega) (s + 5) a' t2 j
              (dvd_add hdvd (dvd_refl 5)) ha2 j' hj'5 (by omega) hj'3
            rw [ha1]
            exact List.mem_append_right _ hrec
        · cases c' with
          | nil =>
              rw [List.append_nil] at hc1
              have hT : traceIdx (chunksOf 5 (List.range' (s + 5) (m - 5)))
                  = [] ++ Event.launch j :: t2 := by
                rw [List.nil_append]
                exact hc2.symm
              by_cases hj'5 : j' < s + 5
              · have hjmem : j' ∈ List.range' s 5 :=
                  List.mem_range'_1.2 ⟨hj'1, by omega⟩
                rw [← hc1]
                exact settle_mem_segEv hjmem
              · push_neg at hj'5
                have hfalse := ih (m - 5) (by omega) (s + 5) [] t2 j
                  (dvd_add hdvd (dvd_refl 5)) hT j' hj'5 (by omega) hj'3
                exact absurd hfalse (List.not_mem_nil _)
          | cons e c'' =>
              injection hc2 with he ht2
              rw [← he] at hc1
              have hjc : j ∈ List.range' s 5 := seg_split_launch hc1
              rw [List.mem_range'_1] at hjc
              obtain ⟨p, rfl⟩ := hdvd
              omega

theorem traceD :
    ∀ m s t1 t2 j, 5 ∣ s →
      traceIdx (chunksOf 5 (List.range' s m)) = t1 ++ Event.settle j :: t2 →
      ∀ j', s ≤ j' → j' < s + m → j' / 5 = j / 5 →
      Event.launch j' ∈ t1 := by
  intro m
  induction m using Nat.strong_induction_on with
  | h m ih =>
    intro s t1 t2 j hdvd heq j' hj'1 hj'2 hj'3
    rcases Nat.eq_zero_or_pos m with hm | hm
    · subst hm
      have hnil : traceIdx (chunksOf 5 (List.range' s 0)) = [] := rfl
      rw [hnil] at heq
      exact absurd heq.symm (by simp)
    · by_cases hm5 : m ≤ 5
      · rw [chunksOf_range'_le s m hm hm5] at heq
        simp only [traceIdx, List.append_nil] at heq
        obtain ⟨hjc, hL⟩ := seg_split_settle heq
        have hjmem : j' ∈ List.range' s m := List.mem_range'_1.2 ⟨hj'1, hj'2⟩
        exact hL j' hjmem
      · push_neg at hm5
        rw [chunksOf_range'_gt s m hm5] at heq
        simp only [traceIdx] at heq
        rcases List.append_eq_append_iff.1 heq with ⟨a', ha1, ha2⟩ | ⟨c', hc1, hc2⟩
        · by_cases hj'5 : j' < s + 5
          · have hjmem : j' ∈ List.range' s 5 := List.mem_range'_1.2 ⟨hj'1, by omega⟩
            rw [ha1]
            exact List.mem_append_left _ (launch_mem_segEv hjmem)
          · push_neg at hj'5
            have hrec := ih (m - 5) (by omega) (s + 5) a' t2 j
              (dvd_add hdvd (dvd_refl 5)) ha2 j' hj'5 (by omega) hj'3
            rw [ha1]
            exact List.mem_append_right _ hrec
        · cases c' with
          | nil =>
              rw [List.append_nil] at hc1
              have hT : traceIdx (chunksOf 5 (List.range' (s + 5) (m - 5)))
                  = [] ++ Event.settle j :: t2 := by
                rw [List.nil_append]
                exact hc2.symm
              by_cases hj'5 : j' < s + 5
              · have hjmem : j' ∈ List.range' s 5 :=
                  List.mem_range'_1.2 ⟨hj'1, by omega⟩
                rw [← hc1]
                exact launch_mem_segEv hjmem
              · push_neg at hj'5
                have hfalse := ih (m - 5) (by omega) (s + 5) [] t2 j
                  (dvd_add hdvd (dvd_refl 5)) hT j' hj'5 (by omega) hj'3
                exact absurd hfalse (List.not_mem_nil _)
          | cons e c'' =>
              injection hc2 with he ht2
              rw [← he] at hc1
              obtain ⟨hjc, hL⟩ := seg_split_settle hc1
              rw [List.mem_range'_1] at hjc
              obtain ⟨p, rfl⟩ := hdvd
              have hjmem : j' ∈ List.range' (5 * p) 5 :=
                List.mem_range'_1.2 ⟨hj'1, by omega⟩
              exact hL j' hjmem

/-- Claim C1: `runEnhancement` splits the job list into contiguous chunks
of `BATCH_SIZE = 5` and processes chunks strictly sequentially.  Stated on
the event trace: (1) the progress callback fires exactly `N` times for `N`
jobs; (2) the `K`-th progress invocation (the one after a prefix holding
`K - 1` progress events) never occurs before every job of batch
`(K-1)/5` has settled; (3) a job is launched only after every job of
every earlier batch has settled (chunk `k+1` starts only after chunk `k`
fully settles); (4) every job of a batch is launched before any job of
that batch settles (the whole chunk is launched together). -/
theorem claimC1 (jobs : List Job) (fmt : Option OutputFormat)
    (convert : String → OutputFormat → String)
    (envs : Nat → Nat → GenResponse) :
    (runEnhancement jobs fmt convert envs).2.count Event.progress = jobs.length
    ∧ (∀ t1 t2, (runEnhancement jobs fmt convert envs).2
          = t1 ++ Event.progress :: t2 →
        ∀ j, j < jobs.length → j / 5 = t1.count Event.progress / 5 →
        Event.settle j ∈ t1)
    ∧ (∀ t1 t2 j, (runEnhancement jobs fmt convert envs).2
          = t1 ++ Event.launch j :: t2 →
        ∀ j', j' < jobs.length → j' / 5 < j / 5 → Event.settle j' ∈ t1)
    ∧ (∀ t1 t2 j, (runEnhancement jobs fmt convert envs).2
          = t1 ++ Event.settle j :: t2 →
        ∀ j', j' < jobs.length → j' / 5 = j / 5 → Event.launch j' ∈ t1) := by
  refine ⟨?_, ?_, ?_, ?_⟩
  · rw [runEnhancement_events, List.range_eq_range']
    exact traceIdx_chunks_count jobs.length 0
  · intro t1 t2 heq j hj hj5
    rw [runEnhancement_events, List.range_eq_range'] at heq
    exact traceB jobs.length 0 t1 t2 ⟨0, rfl⟩ heq j (Nat.zero_le _)
      (by omega) (by omega)
  · intro t1 t2 j heq j' hj' hlt
    rw [runEnhancement_events, List.range_eq_range'] at heq
    exact traceC jobs.length 0 t1 t2 j ⟨0, rfl⟩ heq j' (Nat.zero_le _)
      (by omega) hlt
  · intro t1 t2 j heq j' hj' hbatch
    rw [runEnhancement_events, List.range_eq_range'] at heq
    exact traceD jobs.length 0 t1 t2 j ⟨0, rfl⟩ heq j' (Nat.zero_le _)
      (by omega) hbatch

/-- A concrete record used by the witnesses. -/
def samplePair : ImagePair :=
  { id := "img1", sourceId := "img1", original := "o", originalFile := "f",
    enhanced := none, isLoading := true, error := none, isSelected := false,
    title := "t", enhancedTitle := none }

def sampleJobs : List Job :=
  List.replicate 7 { pair := samplePair, prompt := "p" }

def sampleEnvs : Nat → Nat → GenResponse := fun _ _ => GenResponse.noImage

def idConvert : String → OutputFormat → String := fun u _ => u

def c1T1 : List Event :=
  [Event.launch 0, Event.launch 1, Event.launch 2, Event.launch 3,
   Event.launch 4, Event.settle 0, Event.settle 1, Event.settle 2,
   Event.settle 3, Event.settle 4]

def c1T2 : List Event :=
  [Event.progress, Event.progress, Event.progress, Event.progress,
   Event.launch 5, Event.launch 6, Event.settle 5, Event.settle 6,
   Event.progress, Event.progress]

/-- Witness for C1 on a concrete 7-job run (batches of 5 then 2): the
first progress invocation is preceded by the settlement of job 3 (batch
0), and progress fires exactly 7 times. -/
theorem claimC1_witness :
    (runEnhancement sampleJobs none idConvert sampleEnvs).2.count
        Event.progress = 7
    ∧ Event.settle 3 ∈ c1T1 :=
  ⟨(claimC1 sampleJobs none idConvert sampleEnvs).1,
   (claimC1 sampleJobs none idConvert sampleEnvs).2.1 c1T1 c1T2
     (by decide) 3 (by decide) (by decide)⟩

/-! ### Retry harness lemmas -/

theorem runAttempt_raises {pair : ImagePair} {fmt : Option OutputFormat}
    {convert : String → OutputFormat → String} {r : GenResponse}
    (h : r.raisesError = true) :
    ∃ e, runAttempt pair fmt convert r = .error e := by
  cases r with
  | withImage u => simp [GenResponse.raisesError] at h
  | noImage => exact ⟨some noImageMessage, rfl⟩
  | raised e => exact ⟨e, rfl⟩

theorem enhanceGo_succ_ok {pair : ImagePair} {fmt : Option OutputFormat}
    {convert : String → OutputFormat → String} {responses : Nat → GenResponse}
    {attempt remaining : Nat} {r : ImagePair}
    (h : runAttempt pair fmt convert (responses attempt) = .ok r) :
    enhanceImageWithRetryGo pair fmt convert responses attempt (remaining + 1)
      = (r, []) := by
  simp [enhanceImageWithRetryGo, h]

theorem enhanceGo_last_error {pair : ImagePair} {fmt : Option OutputFormat}
    {convert : String → OutputFormat → String} {responses : Nat → GenResponse}
    {attempt : Nat} {e : Option String}
    (h : runAttempt pair fmt convert (responses attempt) = .error e) :
    enhanceImageWithRetryGo pair fmt convert responses attempt 1
      = ({ pair with
            isLoading := false
            error := some (classifyFinalError e) }, []) := by
  simp [enhanceImageWithRetryGo, h]

theorem enhanceGo_cont_error {pair : ImagePair} {fmt : Option OutputFormat}
    {convert : String → OutputFormat → String} {responses : Nat → GenResponse}
    {attempt remaining : Nat} {e : Option String}
    (h : runAttempt pair fmt convert (responses attempt) = .error e) :
    enhanceImageWithRetryGo pair fmt convert responses attempt (remaining + 2)
      = ((enhanceImageWithRetryGo pair fmt convert responses (attempt + 1)
            (remaining + 1)).1,
         INITIAL_RETRY_DELAY_MS * 2 ^ (attempt - 1)
           :: (enhanceImageWithRetryGo pair fmt convert responses (attempt + 1)
                (remaining + 1)).2) := by
  simp [enhanceImageWithRetryGo, h]

/-- When every attempt raises, the harness settles to the failed record
classified from the final attempt's error, after waits of 1000 and
2000 ms. -/
theorem enhance_all_fail (pair : ImagePair) (prompt : String)
    (fmt : Option OutputFormat) (convert : String → OutputFormat → String)
    (responses : Nat → GenResponse) (e3 : Option String)
    (h1 : (responses 1).raisesError = true)
    (h2 : (responses 2).raisesError = true)
    (h3 : responses 3 = GenResponse.raised e3) :
    enhanceImageWithRetry pair prompt fmt convert responses
      = ({ pair with
            isLoading := false
            error := some (classifyFinalError e3) }, [1000, 2000]) := by
  obtain ⟨e1, he1⟩ := @runAttempt_raises pair fmt convert _ h1
  obtain ⟨e2, he2⟩ := @runAttempt_raises pair fmt convert _ h2
  have he3 : runAttempt pair fmt convert (responses 3) = .error e3 := by
    rw [h3]
    rfl
  show enhanceImageWithRetryGo pair fmt convert responses 1 3 = _
  rw [show (3 : Nat) = 1 + 2 from rfl, enhanceGo_cont_error he1,
    show (1 : Nat) + 1 = 0 + 2 from rfl, enhanceGo_cont_error he2,
    enhanceGo_last_error he3]
  norm_num [INITIAL_RETRY_DELAY_MS]

/-- When the first two attempts raise and the third returns an image
payload, the harness succeeds after waits of 1000 and 2000 ms. -/
theorem enhance_third_succeeds (pair : ImagePair) (prompt : String)
    (fmt : Option OutputFormat) (convert : String → OutputFormat → String)
    (responses : Nat → GenResponse) (url : String)
    (h1 : (responses 1).raisesError = true)
    (h2 : (responses 2).raisesError = true)
    (h3 : responses 3 = GenResponse.withImage url) :
    enhanceImageWithRetry pair prompt fmt convert responses
      = ({ pair with
            enhanced := some (finalUrlFor convert fmt url)
            isLoading := false
            isSelected := true }, [1000, 2000]) := by
  obtain ⟨e1, he1⟩ := @runAttempt_raises pair fmt convert _ h1
  obtain ⟨e2, he2⟩ := @runAttempt_raises pair fmt convert _ h2
  have he3 : runAttempt pair fmt convert (responses 3)
      = .ok { pair with
                enhanced := some (finalUrlFor convert fmt url)
                isLoading := false
                isSelected := true } := by
    rw [h3]
    rfl
  show enhanceImageWithRetryGo pair fmt convert responses 1 3 = _
  rw [show (3 : Nat) = 1 + 2 from rfl, enhanceGo_cont_error he1,
    show (1 : Nat) + 1 = 0 + 2 from rfl, enhanceGo_cont_error he2,
    enhanceGo_succ_ok he3]
  norm_num [INITIAL_RETRY_DELAY_MS]

theorem classify_eq_rateLimit_iff (e3 : Option String) :
    classifyFinalError e3 = rateLimitMessage
      ↔ ∃ msg, e3 = some msg ∧
          (strContainsSub msg "429" || strContainsSub (strToLower msg) "quota"
            || strContainsSub (strToLower msg) "rate limit") = true := by
  cases e3 with
  | none =>
      constructor
      · intro h
        exact absurd h (by decide)
      · rintro ⟨msg, hmsg, -⟩
        cases hmsg
  | some msg =>
      have key : strContainsSub (strToLower rateLimitMessage) "rate limit" = true := by
        decide
      cases hb : (strContainsSub msg "429" || strContainsSub (strToLower msg) "quota"
          || strContainsSub (strToLower msg) "rate limit") with
      | true =>
          constructor
          · intro _
            exact ⟨msg, rfl, hb⟩
          · intro _
            simp [classifyFinalError, hb]
      | false =>
          constructor
          · intro h
            simp [classifyFinalError, hb] at h
            rw [h] at hb
            rw [key] at hb
            simp at hb
          · rintro ⟨msg', hm, hcond⟩
            injection hm with hm'
            subst hm'
            rw [hcond] at hb
            simp at hb

/-- Claim C2: when all three attempts raise, the returned record is in
the failed state (error set, loading cleared, enhanced unchanged), and
the surfaced error message is the fixed rate-limit text exactly when the
final error's message contains "429", or contains "quota" / "rate limit"
case-insensitively; otherwise the raw message is surfaced, and the
generic unknown-error text is surfaced when the final thrown value
carries no message. -/
theorem claimC2 (pair : ImagePair) (prompt : String) (fmt : Option OutputFormat)
    (convert : String → OutputFormat → String) (responses : Nat → GenResponse)
    (e3 : Option String)
    (h1 : (responses 1).raisesError = true)
    (h2 : (responses 2).raisesError = true)
    (h3 : responses 3 = GenResponse.raised e3) :
    ((enhanceImageWithRetry pair prompt fmt convert responses).1.error
        = some (classifyFinalError e3))
    ∧ (enhanceImageWithRetry pair prompt fmt convert responses).1.isLoading = false
    ∧ (enhanceImageWithRetry pair prompt fmt convert responses).1.enhanced
        = pair.enhanced
    ∧ ((enhanceImageWithRetry pair prompt fmt convert responses).1.error
          = some rateLimitMessage
        ↔ ∃ msg, e3 = some msg ∧
            (strContainsSub msg "429" || strContainsSub (strToLower msg) "quota"
              || strContainsSub (strToLower msg) "rate limit") = true)
    ∧ (∀ msg, e3 = some msg →
        (strContainsSub msg "429" || strContainsSub (strToLower msg) "quota"
          || strContainsSub (strToLower msg) "rate limit") = false →
        (enhanceImageWithRetry pair prompt fmt convert responses).1.error
          = some msg)
    ∧ (e3 = none →
        (enhanceImageWithRetry pair prompt fmt convert responses).1.error
          = some unknownErrorMessage) := by
  have hres := enhance_all_fail pair prompt fmt convert responses e3 h1 h2 h3
  have herr : (enhanceImageWithRetry pair prompt fmt convert responses).1.error
      = some (classifyFinalError e3) := by rw [hres]
  refine ⟨herr, by rw [hres], by rw [hres], ?_, ?_, ?_⟩
  · rw [herr, Option.some_inj]
    exact classify_eq_rateLimit_iff e3
  · intro msg hm hcond
    subst hm
    rw [herr]
    simp [classifyFinalError, hcond]
  · intro h0
    subst h0
    rw [herr]
    rfl

/-- Witness for C2: a job whose three attempts all raise an error whose
message contains "429" settles as failed with the fixed rate-limit
message. -/
theorem claimC2_witness :
    (enhanceImageWithRetry samplePair "p" none idConvert
        (fun _ => GenResponse.raised (some "HTTP 429 Too Many Requests"))).1.error
      = some rateLimitMessage :=
  (claimC2 samplePair "p" none idConvert
      (fun _ => GenResponse.raised (some "HTTP 429 Too Many Requests"))
      (some "HTTP 429 Too Many Requests") (by decide) (by decide)
      rfl).2.2.2.1.mpr ⟨"HTTP 429 Too Many Requests", rfl, by decide⟩

/-- Claim C3: the harness waits `INITIAL_RETRY_DELAY_MS * 2^(attempt-1)`
between consecutive attempts and never after the final one, so the
performed waits are always a prefix of `[1000, 2000]`; in particular a
job whose first two attempts raise and whose third returns an image
payload succeeds with exactly the waits 1000 ms and 2000 ms. -/
theorem claimC3 (pair : ImagePair) (prompt : String) (fmt : Option OutputFormat)
    (convert : String → OutputFormat → String)
    (responses : Nat → GenResponse) :
    ((enhanceImageWithRetry pair prompt fmt convert responses).2 = []
      ∨ (enhanceImageWithRetry pair prompt fmt convert responses).2 = [1000]
      ∨ (enhanceImageWithRetry pair prompt fmt convert responses).2
          = [1000, 2000])
    ∧ (∀ url, (responses 1).raisesError = true →
        (responses 2).raisesError = true →
        responses 3 = GenResponse.withImage url →
        enhanceImageWithRetry pair prompt fmt convert responses
          = ({ pair with
                enhanced := some (finalUrlFor convert fmt url)
                isLoading := false
                isSelected := true }, [1000, 2000])) := by
  constructor
  · cases h1 : runAttempt pair fmt convert (responses 1) with
    | ok r1 =>
        have e : enhanceImageWithRetry pair prompt fmt convert responses
            = (r1, []) := enhanceGo_succ_ok h1
        rw [e]
        exact Or.inl rfl
    | error e1 =>
        have s1 : enhanceImageWithRetry pair prompt fmt convert responses
            = ((enhanceImageWithRetryGo pair fmt convert responses 2 2).1,
               1000 * 2 ^ (1 - 1)
                 :: (enhanceImageWithRetryGo pair fmt convert responses 2 2).2) :=
          enhanceGo_cont_error h1
        cases h2 : runAttempt pair fmt convert (responses 2) with
        | ok r2 =>
            have s2 : enhanceImageWithRetryGo pair fmt convert responses 2 2
                = (r2, []) := enhanceGo_succ_ok h2
            rw [s1, s2]
            right
            left
            norm_num
        | error e2 =>
            have s2 : enhanceImageWithRetryGo pair fmt convert responses 2 2
                = ((enhanceImageWithRetryGo pair fmt convert responses 3 1).1,
                   1000 * 2 ^ (2 - 1)
                     :: (enhanceImageWithRetryGo pair fmt convert
                          responses 3 1).2) :=
              enhanceGo_cont_error h2
            cases h3 : runAttempt pair fmt convert (responses 3) with
            | ok r3 =>
                have s3 : enhanceImageWithRetryGo pair fmt convert responses 3 1
                    = (r3, []) := enhanceGo_succ_ok h3
                rw [s1, s2, s3]
                right
                right
                norm_num
            | error e3 =>
                have s3 : enhanceImageWithRetryGo pair fmt convert responses 3 1
                    = ({ pair with
                          isLoading := false
                          error := some (classifyFinalError e3) }, []) :=
                  enhanceGo_last_error h3
                rw [s1, s2, s3]
                right
                right
                norm_num
  · intro url h1 h2 h3
    exact enhance_third_succeeds pair prompt fmt convert responses url h1 h2 h3

def c3Responses : Nat → GenResponse := fun a =>
  if a ≤ 2 then GenResponse.raised (some "boom") else GenResponse.withImage "url"

/-- Witness for C3: two raising attempts followed by an image payload
yield success after exactly the 1000 ms and 2000 ms waits. -/
theorem claimC3_witness :
    enhanceImageWithRetry samplePair "p" none idConvert c3Responses
      = ({ samplePair with
            enhanced := some "url"
            isLoading := false
            isSelected := true }, [1000, 2000]) :=
  (claimC3 samplePair "p" none idConvert c3Responses).2 "url"
    (by decide) (by decide) (by decide)

theorem enhanceGo_frame (pair : ImagePair) (fmt : Option OutputFormat)
    (convert : String → OutputFormat → String)
    (responses : Nat → GenResponse) :
    ∀ remaining attempt,
      ((enhanceImageWithRetryGo pair fmt convert responses
          attempt remaining).1.id = pair.id)
      ∧ ((enhanceImageWithRetryGo pair fmt convert responses
          attempt remaining).1.sourceId = pair.sourceId)
      ∧ ((enhanceImageWithRetryGo pair fmt convert responses
          attempt remaining).1.original = pair.original)
      ∧ ((enhanceImageWithRetryGo pair fmt convert responses
          attempt remaining).1.originalFile = pair.originalFile)
      ∧ ((enhanceImageWithRetryGo pair fmt convert responses
          attempt remaining).1.title = pair.title)
      ∧ ((enhanceImageWithRetryGo pair fmt convert responses
          attempt remaining).1.enhancedTitle = pair.enhancedTitle) := by
  intro remaining
  induction remaining with
  | zero =>
      intro attempt
      exact ⟨rfl, rfl, rfl, rfl, rfl, rfl⟩
  | succ rem ih =>
      intro attempt
      cases hres : responses attempt with
      | withImage u =>
          have h : runAttempt pair fmt convert (responses attempt)
              = .ok { pair with
                        enhanced := some (finalUrlFor convert fmt u)
                        isLoading := false
                        isSelected := true } := by
            rw [hres]
            rfl
          rw [enhanceGo_succ_ok h]
          exact ⟨rfl, rfl, rfl, rfl, rfl, rfl⟩
      | noImage =>
          have h : runAttempt pair fmt convert (responses attempt)
              = .error (some noImageMessage) := by rw [hres]; rfl
          cases rem with
          | zero =>
              rw [enhanceGo_last_error h]
              exact ⟨rfl, rfl, rfl, rfl, rfl, rfl⟩
          | succ rem' =>
              rw [enhanceGo_cont_error h]
              exact ih (attempt + 1)
      | raised e =>
          have h : runAttempt pair fmt convert (responses attempt)
              = .error e := by rw [hres]; rfl
          cases rem with
          | zero =>
              rw [enhanceGo_last_error h]
              exact ⟨rfl, rfl, rfl, rfl, rfl, rfl⟩
          | succ rem' =>
              rw [enhanceGo_cont_error h]
              exact ih (attempt + 1)

/-- Claim C10: in every outcome, the record returned by
`enhanceImageWithRetry` preserves the input record's `id`, `sourceId`,
`original`, `originalFile`, `title` and `enhancedTitle` fields; only
`enhanced`, `isLoading`, `error` and `isSelected` can change. -/
theorem claimC10 (pair : ImagePair) (prompt : String)
    (fmt : Option OutputFormat) (convert : String → OutputFormat → String)
    (responses : Nat → GenResponse) :
    ((enhanceImageWithRetry pair prompt fmt convert responses).1.id = pair.id)
    ∧ ((enhanceImageWithRetry pair prompt fmt convert
        responses).1.sourceId = pair.sourceId)
    ∧ ((enhanceImageWithRetry pair prompt fmt convert
        responses).1.original = pair.original)
    ∧ ((enhanceImageWithRetry pair prompt fmt convert
        responses).1.originalFile = pair.originalFile)
    ∧ ((enhanceImageWithRetry pair prompt fmt convert
        responses).1.title = pair.title)
    ∧ ((enhanceImageWithRetry pair prompt fmt convert
        responses).1.enhancedTitle = pair.enhancedTitle) :=
  enhanceGo_frame pair fmt convert responses MAX_RETRIES 1

/-! ### Batch scheduler results -/

theorem runChunks_fst (fmt : Option OutputFormat)
    (convert : String → OutputFormat → String)
    (envs : Nat → Nat → GenResponse) :
    ∀ l : List (Nat × Job),
      (runChunks fmt convert envs (chunksOf 5 l)).1
        = l.map fun ij =>
            (enhanceImageWithRetry ij.2.pair ij.2.prompt fmt convert
              (envs ij.1)).1 := by
  have main : ∀ n (l : List (Nat × Job)), l.length ≤ n →
      (runChunks fmt convert envs (chunksOf 5 l)).1
        = l.map fun ij =>
            (enhanceImageWithRetry ij.2.pair ij.2.prompt fmt convert
              (envs ij.1)).1 := by
    intro n
    induction n with
    | zero =>
        intro l hl
        have : l = [] := List.eq_nil_of_length_eq_zero (Nat.le_zero.1 hl)
        subst this
        rfl
    | succ n ih =>
        intro l hl
        cases hln : l with
        | nil => rfl
        | cons a t =>
            subst hln
            have hl' : t.length ≤ n := by simpa using hl
            rw [chunksOf_cons 5 (by norm_num) _ (by simp)]
            simp only [runChunks]
            rw [ih ((a :: t).drop 5) (by simp [List.length_drop]; omega)]
            show runBatch fmt convert envs ((a :: t).take 5)
                ++ ((a :: t).drop 5).map _ = _
            rw [show runBatch fmt convert envs ((a :: t).take 5)
                = ((a :: t).take 5).map (fun ij =>
                    (enhanceImageWithRetry ij.2.pair ij.2.prompt fmt convert
                      (envs ij.1)).1) from rfl]
            rw [← List.map_append, List.take_append_drop]
  intro l
  exact main l.length l (le_refl _)

theorem runEnhancement_fst (jobs : List Job) (fmt : Option OutputFormat)
    (convert : String → OutputFormat → String)
    (envs : Nat → Nat → GenResponse) :
    (runEnhancement jobs fmt convert envs).1
      = jobs.enum.map fun ij =>
          (enhanceImageWithRetry ij.2.pair ij.2.prompt fmt convert
            (envs ij.1)).1 :=
  runChunks_fst fmt convert envs jobs.enum

theorem enhanceGo_settled (pair : ImagePair) (fmt : Option OutputFormat)
    (convert : String → OutputFormat → String)
    (responses : Nat → GenResponse) :
    ∀ remaining attempt,
      ((enhanceImageWithRetryGo pair fmt convert responses
          attempt remaining).1.enhanced.isSome = true)
      ∨ ((enhanceImageWithRetryGo pair fmt convert responses
          attempt remaining).1.error.isSome = true) := by
  intro remaining
  induction remaining with
  | zero =>
      intro attempt
      exact Or.inr rfl
  | succ rem ih =>
      intro attempt
      cases hres : responses attempt with
      | withImage u =>
          have h : runAttempt pair fmt convert (responses attempt)
              = .ok { pair with
                        enhanced := some (finalUrlFor convert fmt u)
                        isLoading := false
                        isSelected := true } := by
            rw [hres]
            rfl
          rw [enhanceGo_succ_ok h]
          exact Or.inl rfl
      | noImage =>
          have h : runAttempt pair fmt convert (responses attempt)
              = .error (some noImageMessage) := by rw [hres]; rfl
          cases rem with
          | zero =>
              rw [enhanceGo_last_error h]
              exact Or.inr rfl
          | succ rem' =>
              rw [enhanceGo_cont_error h]
              exact ih (attempt + 1)
      | raised e =>
          have h : runAttempt pair fmt convert (responses attempt)
              = .error e := by rw [hres]; rfl
          cases rem with
          | zero =>
              rw [enhanceGo_last_error h]
              exact Or.inr rfl
          | succ rem' =>
              rw [enhanceGo_cont_error h]
              exact ih (attempt + 1)

theorem enhance_settled (pair : ImagePair) (prompt : String)
    (fmt : Option OutputFormat) (convert : String → OutputFormat → String)
    (responses : Nat → GenResponse) :
    (enhanceImageWithRetry pair prompt fmt convert
        responses).1.enhanced.isSome = true
    ∨ (enhanceImageWithRetry pair prompt fmt convert
        responses).1.error.isSome = true :=
  enhanceGo_settled pair fmt convert responses MAX_RETRIES 1

/-- Claim C4: a failure inside one job never propagates.  The harness
always returns a settled record (image set on success, error set
otherwise), and `runEnhancement` resolves every job: the result has one
record per job, and the record at position `i` is determined solely by
job `i` and its own response environment, so one job's failure neither
aborts its chunk siblings nor prevents later chunks. -/
theorem claimC4 (jobs : List Job) (fmt : Option OutputFormat)
    (convert : String → OutputFormat → String)
    (envs : Nat → Nat → GenResponse) :
    ((runEnhancement jobs fmt convert envs).1.length = jobs.length)
    ∧ (∀ i, (runEnhancement jobs fmt convert envs).1[i]?
          = (jobs[i]?).map fun jb =>
              (enhanceImageWithRetry jb.pair jb.prompt fmt convert
                (envs i)).1)
    ∧ (∀ (pair : ImagePair) (prompt : String) (fmt' : Option OutputFormat)
        (convert' : String → OutputFormat → String)
        (responses : Nat → GenResponse),
        (enhanceImageWithRetry pair prompt fmt' convert'
            responses).1.enhanced.isSome = true
        ∨ (enhanceImageWithRetry pair prompt fmt' convert'
            responses).1.error.isSome = true) := by
  refine ⟨?_, ?_, ?_⟩
  · rw [runEnhancement_fst, List.length_map, List.enum_length]
  · intro i
    rw [runEnhancement_fst, List.getElem?_map, List.getElem?_enum]
    cases h : jobs[i]? <;> simp
  · intro pair prompt fmt' convert' responses
    exact enhance_settled pair prompt fmt' convert' responses

theorem resolvedFold_acc (i : String) :
    ∀ (rs : List ImagePair), (∀ r ∈ rs, r.id ≠ i) →
      ∀ acc : Option ImagePair,
        rs.foldl (fun acc r => if r.id = i then some r else acc) acc = acc := by
  intro rs
  induction rs with
  | nil => intro _ acc; rfl
  | cons a t ih =>
      intro h acc
      have ha : a.id ≠ i := h a (List.mem_cons_self a t)
      show t.foldl _ (if a.id = i then some a else acc) = acc
      rw [if_neg ha]
      exact ih (fun r hr => h r (List.mem_cons_of_mem a hr)) acc

theorem resolvedMapGet_eq_none {rs : List ImagePair} {i : String}
    (h : ∀ r ∈ rs, r.id ≠ i) : resolvedMapGet rs i = none :=
  resolvedFold_acc i rs h none

theorem resolvedMapGet_eq_some {rs : List ImagePair} {i : String}
    {r : ImagePair} (hnd : (rs.map (·.id)).Nodup) (hr : r ∈ rs)
    (hid : r.id = i) : resolvedMapGet rs i = some r := by
  induction rs with
  | nil => cases hr
  | cons a t ih =>
      rw [List.map_cons, List.nodup_cons] at hnd
      obtain ⟨hna, hnt⟩ := hnd
      rcases List.mem_cons.1 hr with rfl | hrt
      · have hti : ∀ q ∈ t, q.id ≠ i := by
          intro q hq hqi
          exact hna (hid ▸ hqi ▸ List.mem_map_of_mem (·.id) hq)
        show t.foldl _ (if r.id = i then some r else none) = some r
        rw [if_pos hid]
        exact resolvedFold_acc i t hti (some r)
      · have hai : a.id ≠ i := by
          intro hae
          apply hna
          rw [hae, ← hid]
          exact List.mem_map_of_mem (·.id) hrt
        show t.foldl _ (if a.id = i then some a else none) = some r
        rw [if_neg hai]
        exact ih hnt hrt

/-- Claim C5: `runEnhancement` accumulates the resolved records in input
order (one per job, in job order), and the merge into session state is
keyed by id: a session record whose id matches no resolved record is kept
unchanged at its position, and a session record whose id matches a
resolved record (ids being unique) is replaced by that resolved record at
the same position. -/
theorem claimC5 (jobs : List Job) (fmt : Option OutputFormat)
    (convert : String → OutputFormat → String)
    (envs : Nat → Nat → GenResponse) (session : List ImagePair) :
    ((runEnhancement jobs fmt convert envs).1
        = jobs.enum.map fun ij =>
            (enhanceImageWithRetry ij.2.pair ij.2.prompt fmt convert
              (envs ij.1)).1)
    ∧ (∀ rs : List ImagePair,
        (mergeResolved session rs).length = session.length)
    ∧ (∀ (rs : List ImagePair) (i : Nat) (p : ImagePair),
        session[i]? = some p → (∀ r ∈ rs, r.id ≠ p.id) →
        (mergeResolved session rs)[i]? = some p)
    ∧ (∀ (rs : List ImagePair) (i : Nat) (p r : ImagePair),
        session[i]? = some p → (rs.map (·.id)).Nodup → r ∈ rs →
        r.id = p.id → (mergeResolved session rs)[i]? = some r) := by
  refine ⟨runEnhancement_fst jobs fmt convert envs, ?_, ?_, ?_⟩
  · intro rs
    exact List.length_map session _
  · intro rs i p hp hnone
    rw [mergeResolved, List.getElem?_map, hp]
    simp [resolvedMapGet_eq_none hnone]
  · intro rs i p r hp hnd hr hid
    rw [mergeResolved, List.getElem?_map, hp]
    simp [resolvedMapGet_eq_some hnd hr hid]

def sessA : ImagePair := { samplePair with id := "a", sourceId := "a" }

def sessB : ImagePair := { samplePair with id := "b", sourceId := "b" }

def resB : ImagePair :=
  { samplePair with id := "b", sourceId := "b", enhanced := some "e" }

/-- Witness for C5 on a concrete two-record session: the record whose id
matches no resolved record is kept, the one whose id matches the resolved
record is replaced. -/
theorem claimC5_witness :
    (mergeResolved [sessA, sessB] [resB])[0]? = some sessA
    ∧ (mergeResolved [sessA, sessB] [resB])[1]? = some resB :=
  ⟨(claimC5 [] none idConvert sampleEnvs [sessA, sessB]).2.2.1 [resB] 0 sessA
      (by decide) (by decide),
   (claimC5 [] none idConvert sampleEnvs [sessA, sessB]).2.2.2 [resB] 1 sessB
      resB (by decide) (by decide) (by decide) (by decide)⟩

/-! ### Eligibility of originals -/

/-- Claim C6: an original record (id = sourceId) that already has at
least one derived record — regardless of that record's success or
failure — is excluded from `sourcePairsToProcess` and from
`unenhancedCount`, and an Auto enhance run builds no job from it; every
job is built from an original with zero derived records. -/
theorem claimC6 (pairs : List ImagePair) (p q : ImagePair)
    (basePrompt : String) (hp : p ∈ pairs) (horig : p.id = p.sourceId)
    (hq : q ∈ pairs) (hqd : q.id ≠ q.sourceId) (hqs : q.sourceId = p.id) :
    p ∉ sourcePairsToProcess pairs
    ∧ unenhancedCount pairs
        < (pairs.filter fun r => decide (r.id = r.sourceId)).length
    ∧ (∀ jb ∈ autoEnhanceJobs pairs basePrompt, jb.pair.sourceId ≠ p.id)
    ∧ (∀ r ∈ sourcePairsToProcess pairs,
        ¬ ∃ q' ∈ pairs, q'.id ≠ q'.sourceId ∧ q'.sourceId = r.id) := by
  have hmemS : ∀ q' ∈ pairs, q'.id ≠ q'.sourceId →
      q'.sourceId ∈ sourceIdsWithResults pairs := by
    intro q' hq'1 hq'2
    exact List.mem_map_of_mem _
      (List.mem_filter.2 ⟨hq'1, by simpa using hq'2⟩)
  have hpS : p.id ∈ sourceIdsWithResults pairs := by
    rw [← hqs]
    exact hmemS q hq hqd
  have hnp : p ∉ sourcePairsToProcess pairs := by
    intro hmem
    have h2 := (List.mem_filter.1 hmem).2
    rw [decide_eq_true_eq] at h2
    exact h2.2 hpS
  refine ⟨hnp, ?_, ?_, ?_⟩
  · have hsplit : sourcePairsToProcess pairs
        = (pairs.filter fun r => decide (r.id = r.sourceId)).filter
            fun r => decide (r.id ∉ sourceIdsWithResults pairs) := by
      rw [sourcePairsToProcess, List.filter_filter]
      apply List.filter_congr
      intro x _
      rw [Bool.decide_and]
      exact Bool.and_comm _ _
    rw [unenhancedCount, hsplit]
    refine List.length_filter_lt_length_iff_exists.2
      ⟨p, List.mem_filter.2 ⟨hp, by simpa using horig⟩, ?_⟩
    simpa using hpS
  · intro jb hjb
    obtain ⟨sp, hsp, rfl⟩ := List.mem_map.1 hjb
    intro hcontra
    have h2 := (List.mem_filter.1 hsp).2
    rw [decide_eq_true_eq] at h2
    have hspid : sp.id = p.id := hcontra
    rw [← hspid] at hpS
    exact h2.2 hpS
  · rintro r hr ⟨q', hq'1, hq'2, hq'3⟩
    have h2 := (List.mem_filter.1 hr).2
    rw [decide_eq_true_eq] at h2
    exact h2.2 (hq'3 ▸ hmemS q' hq'1 hq'2)

def orig1 : ImagePair := { samplePair with id := "o1", sourceId := "o1" }

def deriv1 : ImagePair :=
  { samplePair with
      id := "o1-res-auto"
      sourceId := "o1"
      enhanced := some "e" }

def orig2 : ImagePair := { samplePair with id := "o2", sourceId := "o2" }

def demoPairs : List ImagePair := [orig1, deriv1, orig2]

/-- Witness for C6: in a session holding an original with a derived
result and an untouched original, the former is excluded from
eligibility and from the count, and the one job actually built (for the
untouched original) does not stem from it. -/
theorem claimC6_witness :
    orig1 ∉ sourcePairsToProcess demoPairs
    ∧ unenhancedCount demoPairs
        < (demoPairs.filter fun r => decide (r.id = r.sourceId)).length
    ∧ ({ pair := autoResultPair orig2, prompt := "bp" } : Job).pair.sourceId
        ≠ orig1.id :=
  ⟨(claimC6 demoPairs orig1 deriv1 "bp" (by decide) (by decide) (by decide)
      (by decide) (by decide)).1,
   (claimC6 demoPairs orig1 deriv1 "bp" (by decide) (by decide) (by decide)
      (by decide) (by decide)).2.1,
   (claimC6 demoPairs orig1 deriv1 "bp" (by decide) (by decide) (by decide)
      (by decide) (by decide)).2.2.1
     { pair := autoResultPair orig2, prompt := "bp" } (by decide)⟩

/-! ### Liked set -/

theorem countById_append (l1 l2 : List ImagePair) (i : String) :
    countById (l1 ++ l2) i = countById l1 i + countById l2 i := by
  simp [countById, List.filter_append]

theorem countById_eq_zero {l : List ImagePair} {i : String}
    (h : memberById l i = false) : countById l i = 0 := by
  rw [countById, List.length_eq_zero, List.filter_eq_nil_iff]
  intro a ha
  have := List.any_eq_false.1 h a ha
  simpa using this

theorem toggle_count_of_not_mem (pair : ImagePair) (liked : List ImagePair)
    (h : memberById liked pair.id = false) :
    countById (handleToggleLike pair liked) pair.id = 1 := by
  have h' : liked.any (fun p => decide (p.id = pair.id)) = false := h
  rw [handleToggleLike, h']
  simp only [Bool.false_eq_true, if_false]
  rw [countById_append, countById_eq_zero h]
  simp [countById]

theorem toggle_count_of_mem (pair : ImagePair) (liked : List ImagePair)
    (h : memberById liked pair.id = true) :
    countById (handleToggleLike pair liked) pair.id = 0 := by
  have h' : liked.any (fun p => decide (p.id = pair.id)) = true := h
  rw [handleToggleLike, h']
  simp only [if_true]
  rw [countById, List.length_eq_zero, List.filter_filter, List.filter_eq_nil_iff]
  intro a _
  simp

theorem toggle_member (pair : ImagePair) (liked : List ImagePair) :
    memberById (handleToggleLike pair liked) pair.id
      = !memberById liked pair.id := by
  cases h : memberById liked pair.id with
  | false =>
      have h' : liked.any (fun p => decide (p.id = pair.id)) = false := h
      rw [handleToggleLike, h']
      simp only [Bool.false_eq_true, if_false, Bool.not_false]
      rw [memberById, List.any_append]
      simp
  | true =>
      have h' : liked.any (fun p => decide (p.id = pair.id)) = true := h
      rw [handleToggleLike, h']
      simp only [if_true, Bool.not_true]
      rw [memberById, List.any_eq_false]
      intro a ha
      have := (List.mem_filter.1 ha).2
      simp at this ⊢
      exact this

/-- Claim C7: liking a not-yet-liked record leaves exactly one entry for
its id, unliking a liked record removes every entry for its id, the UI
action toggles membership, and two consecutive toggles can never leave
more than one entry for the id — membership is idempotent under liking. -/
theorem claimC7 (pair : ImagePair) (liked : List ImagePair) :
    (memberById liked pair.id = false →
      countById (handleToggleLike pair liked) pair.id = 1)
    ∧ (memberById liked pair.id = true →
      countById (handleToggleLike pair liked) pair.id = 0)
    ∧ (memberById (handleToggleLike pair liked) pair.id
        = !memberById liked pair.id)
    ∧ countById (handleToggleLike pair (handleToggleLike pair liked))
        pair.id ≤ 1 := by
  refine ⟨toggle_count_of_not_mem pair liked, toggle_count_of_mem pair liked,
    toggle_member pair liked, ?_⟩
  cases h : memberById liked pair.id with
  | false =>
      have h1 : memberById (handleToggleLike pair liked) pair.id = true := by
        rw [toggle_member, h]
        rfl
      rw [toggle_count_of_mem pair _ h1]
      omega
  | true =>
      have h1 : memberById (handleToggleLike pair liked) pair.id = false := by
        rw [toggle_member, h]
        rfl
      rw [toggle_count_of_not_mem pair _ h1]

/-- Witness for C7 at a concrete state: liking then unliking the sample
record on an initially empty liked list. -/
theorem claimC7_witness :
    countById (handleToggleLike samplePair []) samplePair.id = 1
    ∧ countById
        (handleToggleLike samplePair (handleToggleLike samplePair []))
        samplePair.id = 0 :=
  ⟨(claimC7 samplePair []).1 (by decide),
   (claimC7 samplePair (handleToggleLike samplePair [])).2.1 (by decide)⟩

/-! ### Ornament classification -/

theorem ornamentGo_text {responses : Nat → ClassifyResponse}
    {attempt remaining : Nat} {t : String}
    (h : responses attempt = ClassifyResponse.text t) :
    getOrnamentTypeGo responses attempt (remaining + 1)
      = if sanitizeOrnament (strTrim t) ≠ ""
            ∧ 2 < (sanitizeOrnament (strTrim t)).length
            ∧ (sanitizeOrnament (strTrim t)).length < 25
        then (sanitizeOrnament (strTrim t), [])
        else (jewelryFallback, []) := by
  simp [getOrnamentTypeGo, h]

theorem ornamentGo_last_raised {responses : Nat → ClassifyResponse}
    {attempt : Nat} (h : responses attempt = ClassifyResponse.raised) :
    getOrnamentTypeGo responses attempt 1 = (jewelryFallback, []) := by
  simp [getOrnamentTypeGo, h]

theorem ornamentGo_cont_raised {responses : Nat → ClassifyResponse}
    {attempt remaining : Nat}
    (h : responses attempt = ClassifyResponse.raised) :
    getOrnamentTypeGo responses attempt (remaining + 2)
      = ((getOrnamentTypeGo responses (attempt + 1) (remaining + 1)).1,
         INITIAL_RETRY_DELAY_MS * 2 ^ (attempt - 1)
           :: (getOrnamentTypeGo responses (attempt + 1) (remaining + 1)).2) := by
  simp [getOrnamentTypeGo, h]

/-- Claim C8 (amended): `getOrnamentType` treats a decodable response as
success exactly when the TRIMMED response text, after stripping all
characters other than letters and whitespace, has length between 3 and
24 inclusive, returning that sanitized text with no further attempt; any
other decodable response falls back immediately to the constant label
without retrying; a thrown error is retried with backoff
`1000 * 2^(attempt-1)` up to 3 attempts, after which the constant label
is returned. -/
theorem claimC8 (responses : Nat → ClassifyResponse) (t : String) :
    (responses 1 = ClassifyResponse.text t →
      getOrnamentType responses
        = if sanitizeOrnament (strTrim t) ≠ ""
              ∧ 2 < (sanitizeOrnament (strTrim t)).length
              ∧ (sanitizeOrnament (strTrim t)).length < 25
          then (sanitizeOrnament (strTrim t), [])
          else (jewelryFallback, []))
    ∧ ((sanitizeOrnament (strTrim t) ≠ ""
          ∧ 2 < (sanitizeOrnament (strTrim t)).length
          ∧ (sanitizeOrnament (strTrim t)).length < 25)
        ↔ (3 ≤ (sanitizeOrnament (strTrim t)).length
            ∧ (sanitizeOrnament (strTrim t)).length ≤ 24))
    ∧ (responses 1 = ClassifyResponse.raised →
       responses 2 = ClassifyResponse.raised →
       responses 3 = ClassifyResponse.text t →
      getOrnamentType responses
        = if sanitizeOrnament (strTrim t) ≠ ""
              ∧ 2 < (sanitizeOrnament (strTrim t)).length
              ∧ (sanitizeOrnament (strTrim t)).length < 25
          then (sanitizeOrnament (strTrim t), [1000, 2000])
          else (jewelryFallback, [1000, 2000]))
    ∧ (responses 1 = ClassifyResponse.raised →
       responses 2 = ClassifyResponse.raised →
       responses 3 = ClassifyResponse.raised →
      getOrnamentType responses = (jewelryFallback, [1000, 2000])) := by
  refine ⟨?_, ?_, ?_, ?_⟩
  · intro h1
    exact @ornamentGo_text responses 1 2 t h1
  · constructor
    · rintro ⟨-, h2, h3⟩
      exact ⟨by omega, by omega⟩
    · rintro ⟨h3, h24⟩
      refine ⟨?_, by omega, by omega⟩
      intro he
      rw [he] at h3
      exact absurd h3 (by decide)
  · intro h1 h2 h3
    have s1 := @ornamentGo_cont_raised responses 1 1 h1
    have s2 := @ornamentGo_cont_raised responses 2 0 h2
    have s3 := @ornamentGo_text responses 3 0 t h3
    show getOrnamentTypeGo responses 1 3 = _
    rw [s1, s2, s3]
    split_ifs <;> norm_num [INITIAL_RETRY_DELAY_MS]
  · intro h1 h2 h3
    have s1 := @ornamentGo_cont_raised responses 1 1 h1
    have s2 := @ornamentGo_cont_raised responses 2 0 h2
    have s3 := ornamentGo_last_raised h3
    show getOrnamentTypeGo responses 1 3 = _
    rw [s1, s2, s3]
    norm_num [INITIAL_RETRY_DELAY_MS]

def c8Responses : Nat → ClassifyResponse :=
  fun _ => ClassifyResponse.text "  AB  "

/-- Counterexample to C8 as stated: for the response text `"  AB  "`,
stripping non-letter/space characters alone leaves a 6-character text
(within 3..24), so the claim predicts success returning `"  AB  "` — but
the code trims first, obtaining `"AB"` of length 2, and falls back to
the constant label. -/
theorem claimC8_counterexample :
    sanitizeOrnament "  AB  " = "  AB  "
    ∧ ("  AB  " : String).length = 6
    ∧ (sanitizeOrnament (strTrim "  AB  ")).length = 2
    ∧ (getOrnamentType c8Responses).1 = jewelryFallback
    ∧ jewelryFallback ≠ "  AB  " := by
  decide

/-- Witness for C8 (amended) on concrete environments: a first-attempt
response of `" Ring "` succeeds as `"Ring"` with no waits, and three
raising attempts fall back to the label after waits of 1000 and 2000 ms. -/
theorem claimC8_witness :
    getOrnamentType (fun _ => ClassifyResponse.text " Ring ") = ("Ring", [])
    ∧ getOrnamentType (fun _ => ClassifyResponse.raised)
        = (jewelryFallback, [1000, 2000]) := by
  constructor
  · have h := (claimC8 (fun _ => ClassifyResponse.text " Ring ") " Ring ").1 rfl
    rw [h, if_pos (by decide)]
    decide
  · exact (claimC8 (fun _ => ClassifyResponse.raised) "x").2.2.2 rfl rfl rfl

/-! ### Like snapshots and session mutations -/

theorem lookup_append_of_not_mem {i : String} {l2 : List ImagePair} :
    ∀ l1 : List ImagePair, memberById l1 i = false →
      lookupById (l1 ++ l2) i = lookupById l2 i := by
  intro l1
  induction l1 with
  | nil => intro _; rfl
  | cons a t ih =>
      intro h
      rw [memberById, List.any_cons] at h
      obtain ⟨ha, ht⟩ := Bool.or_eq_false_iff.1 h
      show List.find? _ (a :: (t ++ l2)) = _
      rw [List.find?_cons, ha]
      exact ih ht

theorem applySessionOp_liked (op : SessionOp) (s : AppState) :
    (applySessionOp op s).likedImages = s.likedImages := by
  cases op <;> rfl

theorem applySessionOps_liked (ops : List SessionOp) :
    ∀ s : AppState, (applySessionOps ops s).likedImages = s.likedImages := by
  induction ops with
  | nil => intro s; rfl
  | cons op rest ih =>
      intro s
      show (applySessionOps rest (applySessionOp op s)).likedImages = _
      rw [ih, applySessionOp_liked]

/-- Claim C9 (amended): liking a not-yet-liked record stores a copy of
the record exactly as it is at like-time except that `isSelected` is
reset to `false`; any subsequent sequence of session-collection
mutations (selection toggles, removals, appends, run merges) leaves the
stored liked entry untouched. -/
theorem claimC9 (pair : ImagePair) (st : AppState) (ops : List SessionOp)
    (hnot : memberById st.likedImages pair.id = false) :
    lookupById (handleToggleLike pair st.likedImages) pair.id
        = some { pair with isSelected := false }
    ∧ (applySessionOps ops
          { st with
              likedImages := handleToggleLike pair st.likedImages }).likedImages
        = handleToggleLike pair st.likedImages := by
  constructor
  · have h' : st.likedImages.any (fun p => decide (p.id = pair.id)) = false :=
      hnot
    rw [handleToggleLike, h']
    simp only [Bool.false_eq_true, if_false]
    rw [lookup_append_of_not_mem st.likedImages hnot]
    simp [lookupById, List.find?]
  · exact applySessionOps_liked ops _

def likedPairSel : ImagePair := { samplePair with isSelected := true }

/-- Counterexample to C9 as stated: liking a record that is selected at
like-time stores an entry that is NOT the record exactly as it was —
`isSelected` is reset — so no stored entry equals the like-time record. -/
theorem claimC9_counterexample :
    handleToggleLike likedPairSel []
        = [{ likedPairSel with isSelected := false }]
    ∧ ({ likedPairSel with isSelected := false } : ImagePair)
        ≠ likedPairSel := by
  decide

def demoState : AppState := { imagePairs := demoPairs, likedImages := [] }

def demoOps : List SessionOp :=
  [SessionOp.toggleSelection "img1", SessionOp.removeImage "o2",
   SessionOp.addPairs [orig2], SessionOp.mergeRun [resB]]

/-- Witness for C9 (amended): liking the selected sample record and then
mutating the session collection in four ways leaves the stored snapshot
unchanged. -/
theorem claimC9_witness :
    lookupById (handleToggleLike likedPairSel demoState.likedImages)
        likedPairSel.id = some { likedPairSel with isSelected := false }
    ∧ (applySessionOps demoOps
          { demoState with
              likedImages :=
                handleToggleLike likedPairSel
                  demoState.likedImages }).likedImages
        = handleToggleLike likedPairSel demoState.likedImages :=
  claimC9 likedPairSel demoState demoOps (by decide)
